import Mathlib

/-!
Verification development for the `etherealog` repository: a tracing façade
(`Engine` + `Tracer`) over an external EVM execution library, plus two HTTP
handlers (`eval`, `transaction`).

The repository's own code (src/engine/src/lib.rs, src/services/src/main.rs) is
embedded shallowly below.  The external EVM library (revm) is out of scope of
the repository; the few pieces of it the repository's behaviour depends on
(GasInspector, AccountInfo constructors, the inspector calling harness) are
modelled by small definitions, each marked in its doc comment.
-/

namespace Etherealog

/-- 160-bit account address, modelled as a natural number. -/
abbrev Address := Nat

/-- 256-bit EVM word, modelled as a natural number. -/
abbrev U256 := Nat

/-- An emitted EVM log record (opaque to the tracer: its `log` hook ignores it). -/
structure Log where
  raw : Nat
deriving DecidableEq, Repr

/-- The error carried by `EVMError<Infallible>`, observed by the handlers only
through `err.to_string()`; modelled as the rendered string. -/
abbrev EVMError := String

/-! ### Hex encoding / decoding (revm `primitives::hex`, alloy `Bytes::from_str`) -/

/-- Lowercase hex digit for a value below 16. -/
def hexDigit (n : Nat) : Char :=
  if n < 10 then Char.ofNat (48 + n) else Char.ofNat (87 + n)

/-- Two lowercase hex digits of one byte. -/
def hexByte (b : Nat) : String :=
  String.mk [hexDigit (b / 16 % 16), hexDigit (b % 16)]

/-- Modelled from revm `hex::encode_prefixed`: the string "0x" followed by two
lowercase hex digits per byte. -/
def encodePrefixed (bs : List Nat) : String :=
  "0x" ++ String.join (bs.map hexByte)

/-- Value of one hex digit character, if any. -/
def hexDigitVal (c : Char) : Option Nat :=
  if 48 ≤ c.toNat ∧ c.toNat ≤ 57 then some (c.toNat - 48)
  else if 97 ≤ c.toNat ∧ c.toNat ≤ 102 then some (c.toNat - 87)
  else if 65 ≤ c.toNat ∧ c.toNat ≤ 70 then some (c.toNat - 55)
  else none

/-- Decode an even-length hex digit sequence into bytes. -/
def hexDecodeCore : List Char → Option (List Nat)
  | [] => some []
  | [_] => none
  | a :: b :: rest =>
    match hexDigitVal a, hexDigitVal b, hexDecodeCore rest with
    | some x, some y, some tl => some ((16 * x + y) :: tl)
    | _, _, _ => none

/-- Modelled from alloy `Bytes::from_str` (used by the `eval` handler): strips
an optional "0x" prefix and hex-decodes; fails on odd length or a non-hex
digit. -/
def hexDecode (s : String) : Option (List Nat) :=
  let cs := s.data
  hexDecodeCore (match cs with
    | '0' :: 'x' :: rest => rest
    | other => other)

/-! ### revm data the tracer reads -/

/-- Modelled from revm `InstructionResult`, abstracted to what the repository
reads from it: its `Debug` rendering and its `is_error` / `is_revert`
classification. -/
structure InstructionResult where
  /-- The `Debug` rendering of the variant, e.g. "StackUnderflow". -/
  name : String
  is_error : Bool
  is_revert : Bool
deriving DecidableEq, Repr

/-- Modelled from revm `Gas`: limit, remaining and refunded counters. -/
structure Gas where
  limit : Nat
  remaining : Nat
  refunded : Int
deriving DecidableEq, Repr

/-- Modelled from revm `Gas::spend_all`: all remaining gas is marked spent. -/
def Gas.spend_all (g : Gas) : Gas :=
  { g with remaining := 0 }

/-- Modelled from revm `InterpreterResult`: result classification, output bytes
and the frame's gas. -/
structure InterpreterResult where
  result : InstructionResult
  output : List Nat
  gas : Gas
deriving DecidableEq, Repr

/-- Modelled from revm `CallOutcome`. -/
structure CallOutcome where
  result : InterpreterResult
  memory_start : Nat
  memory_len : Nat
deriving DecidableEq, Repr

/-- Modelled from revm `CreateOutcome`. -/
structure CreateOutcome where
  result : InterpreterResult
  address : Option Address
deriving DecidableEq, Repr

/-- Modelled from revm `CallInputs`; opaque to this repository's code, which
never reads or writes it. -/
structure CallInputs where
  raw : Nat
deriving DecidableEq, Repr

/-- Modelled from revm `CreateInputs`; opaque to this repository's code. -/
structure CreateInputs where
  raw : Nat
deriving DecidableEq, Repr

/-- Modelled from revm `EOFCreateInputs`; opaque to this repository's code. -/
structure EOFCreateInputs where
  raw : Nat
deriving DecidableEq, Repr

/-- Snapshot of the revm `Interpreter` as observed through the accessors the
tracer calls: `bytecode.pc()`, `bytecode.opcode()`, `stack.data()`,
`control.gas()`, `memory.size()`/`memory.slice(..)`,
`control.instruction_result()`. -/
structure Interpreter where
  pc : Nat
  opcode : Nat
  stack : List U256
  gasLimit : Nat
  gasRemaining : Nat
  /-- The shared memory bytes; `memory.size()` is its length and
  `memory.slice(0..size)` is the whole list. -/
  memory : List Nat
  instruction_result : InstructionResult
deriving DecidableEq, Repr

/-- The part of the revm `Context` the tracer reads: `ctx.journal().depth()`. -/
structure Ctx where
  depth : Nat
deriving DecidableEq, Repr

/-- The `Gas` value `interpreter.control.gas()` returns for a snapshot. -/
def interpGas (i : Interpreter) : Gas :=
  { limit := i.gasLimit, remaining := i.gasRemaining, refunded := 0 }

/-! ### revm `GasInspector` (external dependency of the Tracer) -/

/-- Modelled from revm `inspectors::GasInspector`: remembers the gas remaining
at the last `step` and exposes the last instruction's cost. -/
structure GasInspector where
  gas_remaining : Nat
  last_gas_cost : Nat
deriving DecidableEq, Repr

/-- Modelled from revm `GasInspector::new`. -/
def GasInspector.new : GasInspector :=
  { gas_remaining := 0, last_gas_cost := 0 }

/-- Modelled from revm `GasInspector::initialize_interp`: records the frame's
gas limit. -/
def GasInspector.initInterp (g : GasInspector) (gas : Gas) : GasInspector :=
  { g with gas_remaining := gas.limit }

/-- Modelled from revm `GasInspector::step`: records the gas remaining before
the instruction. -/
def GasInspector.step (g : GasInspector) (gas : Gas) : GasInspector :=
  { g with gas_remaining := gas.remaining }

/-- Modelled from revm `GasInspector::step_end`: the last instruction's cost is
the (saturating) drop in remaining gas across the instruction. -/
def GasInspector.step_end (g : GasInspector) (gas : Gas) : GasInspector :=
  { gas_remaining := gas.remaining,
    last_gas_cost := g.gas_remaining - gas.remaining }

/-- Modelled from revm `GasInspector::call_end`: on an error outcome, marks the
frame's gas fully spent. -/
def GasInspector.call_end (g : GasInspector) (outcome : CallOutcome) :
    GasInspector × CallOutcome :=
  if outcome.result.result.is_error then
    ({ g with gas_remaining := 0 },
     { outcome with result := { outcome.result with gas := outcome.result.gas.spend_all } })
  else
    (g, outcome)

/-- Modelled from revm `GasInspector::create_end`: on an error outcome, marks
the frame's gas fully spent. -/
def GasInspector.create_end (g : GasInspector) (outcome : CreateOutcome) :
    GasInspector × CreateOutcome :=
  if outcome.result.result.is_error then
    ({ g with gas_remaining := 0 },
     { outcome with result := { outcome.result with gas := outcome.result.gas.spend_all } })
  else
    (g, outcome)

/-! ### The repository's event types (src/engine/src/lib.rs) -/

/-- `StepPre` from src/engine/src/lib.rs: data captured at `step`, consumed at
`step_end`. -/
structure StepPre where
  pc : Nat
  op : Nat
  gas : Nat
  stack : List U256
  memory : Option String
deriving DecidableEq, Repr

/-- `Step` from src/engine/src/lib.rs: one EIP-3155-style trace record. -/
structure Step where
  pc : Nat
  op : Nat
  gas : Nat
  gas_cost : Nat
  stack : List U256
  depth : Nat
  error : Option String
  memory : Option String
deriving DecidableEq, Repr

/-- `Event` from src/engine/src/lib.rs. -/
inductive Event where
  | step (s : Step)
deriving DecidableEq, Repr

/-! ### The Tracer (src/engine/src/lib.rs) -/

/-- `Tracer` from src/engine/src/lib.rs.  The Rust field `step` holds the
pending half-recorded instruction between the `step` and `step_end` hooks. -/
structure Tracer where
  gas_inspector : GasInspector
  step : Option StepPre
  events : List Event
deriving DecidableEq, Repr

/-- `Tracer::new`. -/
def Tracer.new : Tracer :=
  { gas_inspector := GasInspector.new, step := none, events := [] }

/-- `Tracer::step` (the Rust `Inspector::step` hook; named `step_hook` here
because the Lean name `Tracer.step` is taken by the structure field).  Returns
`none` when the Rust `assert_eq!(self.step, None, ..)` would panic. -/
def Tracer.step_hook (t : Tracer) (interpreter : Interpreter) : Option Tracer :=
  let gi := t.gas_inspector.step (interpGas interpreter)
  match t.step with
  | some _ => none
  | none =>
    some { t with
      gas_inspector := gi,
      step := some {
        pc := interpreter.pc,
        op := interpreter.opcode,
        stack := interpreter.stack,
        gas := interpreter.gasRemaining,
        memory :=
          if interpreter.memory.length = 0 then none
          else some (encodePrefixed (interpreter.memory.take interpreter.memory.length)) } }

/-- `Tracer::step_end` (the Rust `Inspector::step_end` hook).  Returns `none`
when the Rust `self.step.take().unwrap()` would panic. -/
def Tracer.step_end_hook (t : Tracer) (interpreter : Interpreter) (ctx : Ctx) : Option Tracer :=
  let gi := t.gas_inspector.step_end (interpGas interpreter)
  match t.step with
  | none => none
  | some s =>
    some { t with
      gas_inspector := gi,
      step := none,
      events := t.events ++ [Event.step {
        pc := s.pc,
        op := s.op,
        stack := s.stack,
        gas := s.gas,
        gas_cost := gi.last_gas_cost,
        depth := ctx.depth,
        error :=
          let result := interpreter.instruction_result
          if result.is_error || result.is_revert then some result.name else none,
        memory := s.memory }] }

/-- `Tracer::call_end`: delegates to `GasInspector::call_end` on the outcome. -/
def Tracer.call_end_hook (t : Tracer) (outcome : CallOutcome) : Tracer × CallOutcome :=
  let p := t.gas_inspector.call_end outcome
  ({ t with gas_inspector := p.1 }, p.2)

/-- `Tracer::create_end`: delegates to `GasInspector::create_end` on the
outcome. -/
def Tracer.create_end_hook (t : Tracer) (outcome : CreateOutcome) : Tracer × CreateOutcome :=
  let p := t.gas_inspector.create_end outcome
  ({ t with gas_inspector := p.1 }, p.2)

/-! ### The revm inspector harness, abstracted

The external engine drives an execution by invoking the hooks of an attached
inspector at fixed points.  An `Action` records one such invocation together
with the data the engine passes in; an execution is a list of actions.  The
hooks may influence the engine only through their return values: a replaced
interpreter / inputs value, or an overriding outcome.  `Effect` records, per
action, exactly this influence as the engine consumes it; the engine's
`ExecutionResult` and final state are a function of the effect sequence. -/

/-- One hook invocation by the external engine during an execution, together
with the data the engine passes to the hook.  For `acall` the engine consults
the inspector's `call` hook before running the sub-frame; `acall_end` carries
the outcome the engine computed for the finished sub-frame (likewise for the
create variants). -/
inductive Action where
  | ainit (i : Interpreter)
  | astep (i : Interpreter)
  | astep_end (i : Interpreter) (ctx : Ctx)
  | alog (i : Interpreter) (l : Log)
  | acall (inputs : CallInputs)
  | acall_end (inputs : CallInputs) (outcome : CallOutcome)
  | acreate (inputs : CreateInputs)
  | acreate_end (inputs : CreateInputs) (outcome : CreateOutcome)
  | aeofcreate (inputs : EOFCreateInputs)
  | aeofcreate_end (inputs : EOFCreateInputs) (outcome : CreateOutcome)
  | aselfdestruct (contract target : Address) (value : U256)
deriving DecidableEq, Repr

/-- The part of a finished (or overriding) call outcome that the engine's
calling frame actually consumes.  Modelled from revm `insert_call_outcome` /
`insert_create_outcome`: the sub-frame's remaining gas is returned to the
caller only when the sub-frame succeeded or reverted, and its refund counter
only on success; an error outcome consumes the whole frame's gas. -/
structure Absorbed where
  res : InstructionResult
  output : List Nat
  gasBack : Nat
  refund : Int
deriving DecidableEq, Repr

/-- The caller-visible part of a `CallOutcome` (see `Absorbed`). -/
def absorbCall (o : CallOutcome) : Absorbed :=
  { res := o.result.result,
    output := o.result.output,
    gasBack := if o.result.result.is_error then 0 else o.result.gas.remaining,
    refund := if o.result.result.is_error || o.result.result.is_revert then 0
              else o.result.gas.refunded }

/-- The caller-visible part of a `CreateOutcome` (see `Absorbed`). -/
def absorbCreate (o : CreateOutcome) : Absorbed × Option Address :=
  ({ res := o.result.result,
     output := o.result.output,
     gasBack := if o.result.result.is_error then 0 else o.result.gas.remaining,
     refund := if o.result.result.is_error || o.result.result.is_revert then 0
               else o.result.gas.refunded },
   o.address)

/-- Everything through which an inspector can influence one engine action:
the interpreter value the engine continues with after a mutating hook, the
inputs and optional overriding outcome at a frame start, and the
caller-visible outcome at a frame end. -/
inductive Effect where
  | initEff (i : Interpreter)
  | stepEff (i : Interpreter)
  | stepEndEff (i : Interpreter)
  | logEff (i : Interpreter)
  | callEff (inputs : CallInputs) (ov : Option Absorbed)
  | callEndEff (o : Absorbed)
  | createEff (inputs : CreateInputs) (ov : Option (Absorbed × Option Address))
  | createEndEff (o : Absorbed × Option Address)
  | eofcreateEff (inputs : EOFCreateInputs) (ov : Option (Absorbed × Option Address))
  | eofcreateEndEff (o : Absorbed × Option Address)
  | sdEff (contract target : Address) (value : U256)
deriving DecidableEq, Repr

/-- The revm `Inspector` interface, shallowly: each Rust `&mut` parameter
becomes a returned value; `step`/`step_end` return `none` when the hook
panics. -/
structure Inspector (σ : Type) where
  initInterp : σ → Interpreter → σ × Interpreter
  step : σ → Interpreter → Option (σ × Interpreter)
  step_end : σ → Interpreter → Ctx → Option (σ × Interpreter)
  log : σ → Interpreter → Log → σ × Interpreter
  call : σ → CallInputs → σ × CallInputs × Option CallOutcome
  call_end : σ → CallInputs → CallOutcome → σ × CallOutcome
  create : σ → CreateInputs → σ × CreateInputs × Option CreateOutcome
  create_end : σ → CreateInputs → CreateOutcome → σ × CreateOutcome
  eofcreate : σ → EOFCreateInputs → σ × EOFCreateInputs × Option CreateOutcome
  eofcreate_end : σ → EOFCreateInputs → CreateOutcome → σ × CreateOutcome
  selfdestruct : σ → Address → Address → U256 → σ

/-- One hook invocation of an inspector: the successor inspector state and the
effect the engine consumes, or `none` when the hook panics. -/
def Inspector.act {σ : Type} (I : Inspector σ) (s : σ) : Action → Option (σ × Effect)
  | Action.ainit i =>
    let p := I.initInterp s i
    some (p.1, Effect.initEff p.2)
  | Action.astep i => (I.step s i).map fun p => (p.1, Effect.stepEff p.2)
  | Action.astep_end i ctx => (I.step_end s i ctx).map fun p => (p.1, Effect.stepEndEff p.2)
  | Action.alog i l =>
    let p := I.log s i l
    some (p.1, Effect.logEff p.2)
  | Action.acall inputs =>
    let p := I.call s inputs
    some (p.1, Effect.callEff p.2.1 (p.2.2.map absorbCall))
  | Action.acall_end inputs outcome =>
    let p := I.call_end s inputs outcome
    some (p.1, Effect.callEndEff (absorbCall p.2))
  | Action.acreate inputs =>
    let p := I.create s inputs
    some (p.1, Effect.createEff p.2.1 (p.2.2.map absorbCreate))
  | Action.acreate_end inputs outcome =>
    let p := I.create_end s inputs outcome
    some (p.1, Effect.createEndEff (absorbCreate p.2))
  | Action.aeofcreate inputs =>
    let p := I.eofcreate s inputs
    some (p.1, Effect.eofcreateEff p.2.1 (p.2.2.map absorbCreate))
  | Action.aeofcreate_end inputs outcome =>
    let p := I.eofcreate_end s inputs outcome
    some (p.1, Effect.eofcreateEndEff (absorbCreate p.2))
  | Action.aselfdestruct a b v =>
    some (I.selfdestruct s a b v, Effect.sdEff a b v)

/-- Run an inspector over an execution's action list, collecting the effect
sequence the engine consumes.  Returns `none` when a hook panics. -/
def Inspector.run {σ : Type} (I : Inspector σ) : σ → List Action → Option (σ × List Effect)
  | s, [] => some (s, [])
  | s, a :: rest =>
    match I.act s a with
    | none => none
    | some p => (Inspector.run I p.1 rest).map fun r => (r.1, p.2 :: r.2)

/-- The Tracer's `revm::Inspector` impl (src/engine/src/lib.rs) assembled into
the hook record.  Hooks whose Rust bodies never write through their `&mut`
parameters return those parameters unchanged. -/
def Tracer.inspector : Inspector Tracer where
  initInterp := fun t i =>
    ({ t with gas_inspector := t.gas_inspector.initInterp (interpGas i) }, i)
  step := fun t i => (Tracer.step_hook t i).map fun t2 => (t2, i)
  step_end := fun t i ctx => (Tracer.step_end_hook t i ctx).map fun t2 => (t2, i)
  log := fun t i _l => (t, i)
  call := fun t inputs => (t, inputs, none)
  call_end := fun t _inputs outcome =>
    let p := Tracer.call_end_hook t outcome
    (p.1, p.2)
  create := fun t inputs => (t, inputs, none)
  create_end := fun t _inputs outcome =>
    let p := Tracer.create_end_hook t outcome
    (p.1, p.2)
  eofcreate := fun t inputs => (t, inputs, none)
  eofcreate_end := fun t _inputs outcome => (t, outcome)
  selfdestruct := fun t _c _a _v => t

/-- The identity inspector: running the engine with it is running the engine
with no inspector attached (every hook leaves its inputs unchanged and never
overrides). -/
def nullInspector : Inspector Unit where
  initInterp := fun _ i => ((), i)
  step := fun _ i => some ((), i)
  step_end := fun _ i _ => some ((), i)
  log := fun _ i _ => ((), i)
  call := fun _ inputs => ((), inputs, none)
  call_end := fun _ _ outcome => ((), outcome)
  create := fun _ inputs => ((), inputs, none)
  create_end := fun _ _ outcome => ((), outcome)
  eofcreate := fun _ inputs => ((), inputs, none)
  eofcreate_end := fun _ _ outcome => ((), outcome)
  selfdestruct := fun _ _ _ _ => ()

/-- The effect sequence of an uninspected run: every hook point passes the
engine's own data through unchanged. -/
def effectsOf : List Action → List Effect
  | [] => []
  | Action.ainit i :: rest => Effect.initEff i :: effectsOf rest
  | Action.astep i :: rest => Effect.stepEff i :: effectsOf rest
  | Action.astep_end i _ :: rest => Effect.stepEndEff i :: effectsOf rest
  | Action.alog i _ :: rest => Effect.logEff i :: effectsOf rest
  | Action.acall inputs :: rest => Effect.callEff inputs none :: effectsOf rest
  | Action.acall_end _ outcome :: rest =>
    Effect.callEndEff (absorbCall outcome) :: effectsOf rest
  | Action.acreate inputs :: rest => Effect.createEff inputs none :: effectsOf rest
  | Action.acreate_end _ outcome :: rest =>
    Effect.createEndEff (absorbCreate outcome) :: effectsOf rest
  | Action.aeofcreate inputs :: rest => Effect.eofcreateEff inputs none :: effectsOf rest
  | Action.aeofcreate_end _ outcome :: rest =>
    Effect.eofcreateEndEff (absorbCreate outcome) :: effectsOf rest
  | Action.aselfdestruct a b v :: rest => Effect.sdEff a b v :: effectsOf rest

/-! ### The engine's hook calling discipline -/

/-- The hook ordering the revm inspector harness guarantees for one
execution: `step` and `step_end` strictly alternate in matched pairs (one
pair per executed instruction), and between a `step` and its `step_end` the
engine invokes only the hooks fired from within the instruction's own
execution — `log` (revm calls `Inspector::log` between executing a
LOG instruction and its `step_end`) and `selfdestruct`; the frame-level hooks
(`initialize_interp`, `call`/`call_end`, `create`/`create_end`, and the
eofcreate pair) occur outside instruction pairs.  The flag records whether
the head of the list lies inside a pair. -/
def pairDiscipline : Bool → List Action → Bool
  | false, [] => true
  | true, [] => false
  | false, Action.astep _ :: rest => pairDiscipline true rest
  | true, Action.astep _ :: _ => false
  | true, Action.astep_end _ _ :: rest => pairDiscipline false rest
  | false, Action.astep_end _ _ :: _ => false
  | true, Action.alog _ _ :: rest => pairDiscipline true rest
  | true, Action.aselfdestruct _ _ _ :: rest => pairDiscipline true rest
  | true, _ :: _ => false
  | false, _ :: rest => pairDiscipline false rest

/-- Strict alternation of `step` / `step_end` (the weaker discipline named by
the repository's own assertion messages): given the pending flag, `step` only
when not pending, `step_end` only when pending. -/
def altOk : Bool → List Action → Bool
  | _, [] => true
  | pending, Action.astep _ :: rest => !pending && altOk true rest
  | pending, Action.astep_end _ _ :: rest => pending && altOk false rest
  | pending, _ :: rest => altOk pending rest

/-- Whether a prefix of the action list ends inside a `step`/`step_end` pair. -/
def pendState : Bool → List Action → Bool
  | p, [] => p
  | _, Action.astep _ :: rest => pendState true rest
  | _, Action.astep_end _ _ :: rest => pendState false rest
  | p, _ :: rest => pendState p rest

/-- The executed instructions of an action list: for each `step`/`step_end`
pair, the interpreter snapshot at `step`, the snapshot at `step_end`, and the
context at `step_end`; hooks interposed inside a pair are skipped.  The first
argument carries the `step` snapshot of a currently open pair. -/
def pairsFrom : Option Interpreter → List Action → List (Interpreter × Interpreter × Ctx)
  | _, [] => []
  | _, Action.astep b :: rest => pairsFrom (some b) rest
  | some b, Action.astep_end e c :: rest => (b, e, c) :: pairsFrom none rest
  | none, Action.astep_end _ _ :: rest => pairsFrom none rest
  | p, _ :: rest => pairsFrom p rest

/-- The pending record `Tracer::step` captures from an interpreter snapshot. -/
def stepPreOf (b : Interpreter) : StepPre :=
  { pc := b.pc, op := b.opcode, gas := b.gasRemaining, stack := b.stack,
    memory :=
      if b.memory.length = 0 then none
      else some (encodePrefixed (b.memory.take b.memory.length)) }

/-- The tracer state a well-formed run maintains relative to an open pair:
outside a pair the pending slot is empty; inside a pair opened at snapshot
`b` the slot holds the captured `StepPre` and the gas inspector remembers the
gas remaining at `step`. -/
def pendingInv (t : Tracer) : Option Interpreter → Prop
  | none => t.step = none
  | some b => t.step = some (stepPreOf b) ∧
      t.gas_inspector.gas_remaining = b.gasRemaining

/-- The `Step` record the Tracer emits for one executed instruction:
`b` is the interpreter before the instruction, `e` after it. -/
def mkStep (b e : Interpreter) (c : Ctx) : Step :=
  { pc := b.pc,
    op := b.opcode,
    gas := b.gasRemaining,
    gas_cost := b.gasRemaining - e.gasRemaining,
    stack := b.stack,
    depth := c.depth,
    error :=
      if e.instruction_result.is_error || e.instruction_result.is_revert then
        some e.instruction_result.name
      else none,
    memory :=
      if b.memory.length = 0 then none
      else some (encodePrefixed (b.memory.take b.memory.length)) }

/-- The event emitted for one executed instruction. -/
def stepEventOf (p : Interpreter × Interpreter × Ctx) : Event :=
  Event.step (mkStep p.1 p.2.1 p.2.2)

/-! ### Accounts and the Engine façade (src/engine/src/lib.rs) -/

/-- Modelled from revm `AccountInfo`, abstracted to the fields this repository
sets and reads: balance, nonce and (optional) raw bytecode. -/
structure AccountInfo where
  balance : U256
  nonce : Nat
  code : Option (List Nat)
deriving DecidableEq, Repr

/-- Modelled from revm `AccountInfo::from_balance`: the given balance, nonce 0
and no code. -/
def AccountInfo.from_balance (b : U256) : AccountInfo :=
  { balance := b, nonce := 0, code := none }

/-- Modelled from revm `AccountInfo::with_nonce`. -/
def AccountInfo.with_nonce (a : AccountInfo) (n : Nat) : AccountInfo :=
  { a with nonce := n }

/-- Modelled from revm `AccountInfo::from_bytecode`: the given code with
balance zero and nonce 1. -/
def AccountInfo.from_bytecode (code : List Nat) : AccountInfo :=
  { balance := 0, nonce := 1, code := some code }

/-- Modelled from revm `Account`: account info plus its storage slots. -/
structure Account where
  info : AccountInfo
  storage : List (U256 × U256)
deriving DecidableEq, Repr

/-- Modelled from revm `Account::from(AccountInfo)`: empty storage. -/
def AccountInfo.toAccount (a : AccountInfo) : Account :=
  { info := a, storage := [] }

/-- Modelled from revm `Account::with_storage`. -/
def Account.with_storage (a : Account) (st : List (U256 × U256)) : Account :=
  { a with storage := st }

/-- The engine's in-memory account state (revm `Journal` state over `EmptyDB`):
an association list where the most recent insertion for an address wins, i.e.
`List.lookup` finds the first (newest) entry. -/
abbrev EvmState := List (Address × Account)

/-- Modelled from revm `TxKind`. -/
inductive TxKind where
  | Call (a : Address)
  | Create
deriving DecidableEq, Repr

/-- Modelled from revm `TxEnv`, restricted to the fields this repository sets;
all remaining fields are left at their defaults by every call site and are
never read by this repository. -/
structure TxEnv where
  kind : TxKind
  gas_limit : Nat
  data : List Nat
deriving DecidableEq, Repr

/-- The `TxEnv` default values used via `..Default::default()` (revm defaults:
gas limit 30 000 000, empty calldata, `TxKind::Call(Address::ZERO)`). -/
def TxEnv.default : TxEnv :=
  { kind := TxKind.Call 0, gas_limit := 30000000, data := [] }

/-- Modelled from revm `ResultAndState`, opaque to this repository: the façade
and the handlers pass it through without inspecting it. -/
structure ResultAndState where
  raw : Nat
deriving DecidableEq, Repr

/-- The external EVM engine, abstracted: from the in-memory pre-state and the
transaction environment it determines the hook invocations it will drive and
the result it computes.  This repository never looks inside it. -/
abbrev ExtEngine := EvmState → TxEnv → List Action × Except EVMError ResultAndState

/-- `Engine` from src/engine/src/lib.rs: the wrapped EVM is represented by its
two repository-visible pieces of state, the inspector and the journal's
account map. -/
structure Engine where
  tracer : Tracer
  state : EvmState
deriving DecidableEq, Repr

/-- `Engine::new`: mainnet configuration over `EmptyDB` (no pre-existing
accounts) with a fresh `Tracer`. -/
def Engine.new : Engine :=
  { tracer := Tracer.new, state := [] }

/-- `Engine::create_account`: inserts the account into the journal's state map
(a `HashMap` insert: the new entry shadows any previous one at the same
address). -/
def Engine.create_account (eng : Engine) (address : Address) (account : Account) : Engine :=
  { eng with state := (address, account) :: eng.state }

/-- `Engine::execute`: runs `inspect_with_tx(tx)` on the external engine (which
drives the tracer's hooks over the engine's pre-state), then takes the whole
buffered event list out of the tracer (`split_off(0)`).  Returns `none` when a
tracer hook panics; on an engine error the `?` returns early, leaving the
event buffer untouched. -/
def Engine.execute (ext : ExtEngine) (eng : Engine) (tx : TxEnv) :
    Option (Except EVMError (ResultAndState × List Event) × Engine) :=
  let run := ext eng.state tx
  match Inspector.run Tracer.inspector eng.tracer run.1 with
  | none => none
  | some p =>
    match run.2 with
    | Except.error e => some (Except.error e, { eng with tracer := p.1 })
    | Except.ok r =>
      some (Except.ok (r, p.1.events), { eng with tracer := { p.1 with events := [] } })

/-! ### The HTTP handlers (src/services/src/main.rs)

The services crate drives the engine through a delegate-carrying variant of the
tracer whose source is not under src/; per the spec that variant likewise only
"buffers per-instruction callbacks into a serializable event log", so its
observable behaviour (the response carries exactly the events captured during
the call, and the execution summary) is the behaviour of `Engine.execute`
above.  The handler logic itself is translated from src/services/src/main.rs. -/

/-- `Response` from src/services/src/main.rs. -/
structure Response where
  events : List Event
  summary : ResultAndState
deriving DecidableEq, Repr

/-- The address `0xffffffffffffffffffffffffffffffffffffffff` used by the
`eval` handler. -/
def evalAddr : Address := 2 ^ 160 - 1

/-- The `eval` handler (`POST /api/isolate/eval/<code>`), parameterised by the
external engine.  `none` models a tracer panic aborting the request; otherwise
the handler returns the `Result<Json<Response>, String>` value. -/
def eval (ext : ExtEngine) (code : String) : Option (Except String Response) :=
  match hexDecode code with
  | none => some (Except.error "failed to parse bytes")
  | some bytes =>
    let eng := Engine.create_account Engine.new evalAddr
      (AccountInfo.toAccount (AccountInfo.from_bytecode bytes))
    match Engine.execute ext eng
        { TxEnv.default with kind := TxKind.Call evalAddr, gas_limit := 0x1000000 } with
    | none => none
    | some (Except.error e, _) => some (Except.error e)
    | some (Except.ok pr, _) =>
      some (Except.ok { events := pr.2, summary := pr.1 })

/-- The pre-state the `eval` handler is expected to install for decoded
bytecode `bs`: the single contract account at `evalAddr` (balance 0, nonce 1
per `AccountInfo::from_bytecode`, empty storage). -/
def evalPre (bs : List Nat) : EvmState :=
  [(evalAddr, { info := { balance := 0, nonce := 1, code := some bs }, storage := [] })]

/-- The transaction the `eval` handler issues: a call to `evalAddr` with gas
limit `0x1000000` and otherwise default fields. -/
def evalTx : TxEnv :=
  { kind := TxKind.Call evalAddr, gas_limit := 0x1000000, data := [] }

/-- One account of a `POST /api/isolate/transaction` request body. -/
structure ReqAccount where
  address : Address
  balance : U256
  nonce : Nat
  code : Option (List Nat)
  storage : List (U256 × U256)
deriving DecidableEq, Repr

/-- `Transaction` from src/services/src/main.rs. -/
inductive Transaction where
  | Call (address : Address)
deriving DecidableEq, Repr

/-- `Environment` from src/services/src/main.rs. -/
structure Environment where
  accounts : List ReqAccount
  transaction : Transaction
deriving DecidableEq, Repr

/-- How the `transaction` handler turns one request account into the installed
revm account: with code absent, `AccountInfo::from_balance(balance)
.with_nonce(nonce)`; with code present, `AccountInfo::from_bytecode(code)`
(which fixes balance 0 and nonce 1); in both cases `.with_storage(storage)`. -/
def installAccount (a : ReqAccount) : Account :=
  Account.with_storage
    (AccountInfo.toAccount (match a.code with
      | none => (AccountInfo.from_balance a.balance).with_nonce a.nonce
      | some code => AccountInfo.from_bytecode code))
    a.storage

/-- The engine the `transaction` handler builds before executing: a fresh
engine with every request account installed in order. -/
def transactionEngine (env : Environment) : Engine :=
  env.accounts.foldl (fun e a => e.create_account a.address (installAccount a)) Engine.new

/-- The `transaction` handler (`POST /api/isolate/transaction`), parameterised
by the external engine. -/
def transaction (ext : ExtEngine) (env : Environment) : Option (Except String Response) :=
  let eng := transactionEngine env
  match Engine.execute ext eng
      { TxEnv.default with
        kind := match env.transaction with
          | Transaction.Call address => TxKind.Call address,
        gas_limit := 0x1000000 } with
  | none => none
  | some (Except.error e, _) => some (Except.error e)
  | some (Except.ok pr, _) =>
    some (Except.ok { events := pr.2, summary := pr.1 })

/-! ### JSON serialization of `Step` (serde derive on src/engine/src/lib.rs) -/

/-- A JSON value, as far as the serialized `Step` needs. -/
inductive JVal where
  | num (n : Nat)
  | str (s : String)
  | arr (xs : List JVal)
deriving Repr

/-- The serde serialization of `Step` as an ordered list of JSON object
fields: `rename_all = "camelCase"` renames `gas_cost` to "gasCost", and the
`skip_serializing_if = "Option::is_none"` attributes drop the `error` and
`memory` fields when they are `None`. -/
def Step.serialize (s : Step) : List (String × JVal) :=
  [("pc", JVal.num s.pc),
   ("op", JVal.num s.op),
   ("gas", JVal.num s.gas),
   ("gasCost", JVal.num s.gas_cost),
   ("stack", JVal.arr (s.stack.map JVal.num)),
   ("depth", JVal.num s.depth)]
  ++ (match s.error with
      | none => []
      | some e => [("error", JVal.str e)])
  ++ (match s.memory with
      | none => []
      | some m => [("memory", JVal.str m)])

/-! ### Concrete sample data used to evaluate the theorems -/

/-- A sample interpreter snapshot. -/
def demoInterp (pcv gasv : Nat) (stk : List U256) (mem : List Nat) : Interpreter :=
  { pc := pcv, opcode := 96, stack := stk, gasLimit := 100, gasRemaining := gasv,
    memory := mem, instruction_result := { name := "Continue", is_error := false, is_revert := false } }

/-- A sample call outcome whose result is an error. -/
def demoErrOutcome : CallOutcome :=
  { result := { result := { name := "OutOfGas", is_error := true, is_revert := false },
                output := [], gas := { limit := 10, remaining := 4, refunded := 0 } },
    memory_start := 0, memory_len := 0 }

/-- A sample well-formed hook script: two instructions around a sub-call whose
outcome is an error. -/
def demoScript : List Action :=
  [Action.ainit (demoInterp 0 50 [] []),
   Action.astep (demoInterp 0 50 [] []),
   Action.astep_end (demoInterp 2 47 [64] []) { depth := 1 },
   Action.acall { raw := 5 },
   Action.acall_end { raw := 5 } demoErrOutcome,
   Action.astep (demoInterp 2 47 [64] [0, 255]),
   Action.astep_end (demoInterp 3 40 [] [0, 255]) { depth := 1 }]

/-- A sample external engine for exercising the handler theorems: no hook
invocations, a fixed successful result. -/
def demoExt : ExtEngine := fun _ _ => ([], Except.ok { raw := 0 })

/-- A sample external engine that fails. -/
def demoExtErr : ExtEngine := fun _ _ => ([], Except.error "engine failed")

/-- A request account carrying both a balance/nonce and code, exercising the
`transaction` handler's account installation. -/
def demoReqAccount : ReqAccount :=
  { address := 1, balance := 5, nonce := 7, code := some [96, 64], storage := [(2, 3)] }

/-- A request environment holding `demoReqAccount`. -/
def demoEnv : Environment :=
  { accounts := [demoReqAccount], transaction := Transaction.Call 1 }

/-- A request account without code. -/
def demoReqAccount2 : ReqAccount :=
  { address := 4, balance := 9, nonce := 2, code := none, storage := [] }

/-- A sample external engine that drives `demoScript` and succeeds. -/
def demoExtScript : ExtEngine := fun _ _ => (demoScript, Except.ok { raw := 0 })

/-- A sample well-formed hook script for a LOG-emitting, self-destructing
execution: the `log` and `selfdestruct` hooks fire between a `step` and its
`step_end`, as the revm harness does. -/
def demoScriptLog : List Action :=
  [Action.ainit (demoInterp 0 50 [] []),
   Action.astep (demoInterp 0 50 [] []),
   Action.alog (demoInterp 0 48 [] []) { raw := 7 },
   Action.astep_end (demoInterp 2 47 [64] []) { depth := 1 },
   Action.acall { raw := 5 },
   Action.acall_end { raw := 5 } demoErrOutcome,
   Action.astep (demoInterp 2 47 [64] [0, 255]),
   Action.aselfdestruct 10 11 1,
   Action.astep_end (demoInterp 3 40 [] [0, 255]) { depth := 1 }]

/-- A sample external engine that drives `demoScriptLog` and succeeds. -/
def demoExtScriptLog : ExtEngine := fun _ _ => (demoScriptLog, Except.ok { raw := 0 })

/-- A sample account value. -/
def demoAccount : Account :=
  { info := { balance := 3, nonce := 0, code := none }, storage := [] }

/-! ### Lemmas -/

lemma run_nil {σ : Type} (I : Inspector σ) (s : σ) : I.run s [] = some (s, []) := rfl

lemma run_cons {σ : Type} (I : Inspector σ) (s : σ) (a : Action) (rest : List Action) :
    I.run s (a :: rest) =
      match I.act s a with
      | none => none
      | some p => (I.run p.1 rest).map fun r => (r.1, p.2 :: r.2) := rfl

/-- Running the null inspector never panics and yields the pass-through effect
sequence. -/
lemma run_null (s : List Action) :
    Inspector.run nullInspector () s = some ((), effectsOf s) := by
  induction s with
  | nil => rfl
  | cons a rest ih =>
    cases a <;> simp [run_cons, Inspector.act, effectsOf, nullInspector, ih] <;>
      exact ⟨(), ih⟩

/-- `GasInspector::call_end` does not change the caller-visible part of a call
outcome: it rewrites the outcome's remaining gas only on error outcomes, whose
remaining gas the caller ignores. -/
lemma absorbCall_call_end (g : GasInspector) (o : CallOutcome) :
    absorbCall (g.call_end o).2 = absorbCall o := by
  unfold GasInspector.call_end absorbCall Gas.spend_all
  cases h : o.result.result.is_error <;> simp [h]

/-- `GasInspector::create_end` does not change the caller-visible part of a
create outcome. -/
lemma absorbCreate_create_end (g : GasInspector) (o : CreateOutcome) :
    absorbCreate (g.create_end o).2 = absorbCreate o := by
  unfold GasInspector.create_end absorbCreate Gas.spend_all
  cases h : o.result.result.is_error <;> simp [h]

/-- Any successful tracer hook invocation leaves the event buffer either
unchanged or extended at the end, and never shrinks it. -/
lemma tracer_act_events (a : Action) (t : Tracer) (p : Tracer × Effect)
    (h : Tracer.inspector.act t a = some p) : ∃ d, p.1.events = t.events ++ d := by
  cases a with
  | astep i =>
    simp only [Inspector.act, Tracer.inspector, Option.map_map, Option.map_eq_some'] at h
    obtain ⟨t2, ht2, rfl⟩ := h
    unfold Tracer.step_hook at ht2
    cases hstep : t.step with
    | some _ => rw [hstep] at ht2; exact absurd ht2 (by simp)
    | none =>
      rw [hstep] at ht2
      simp only [Option.some_inj] at ht2
      exact ⟨[], by simp [← ht2]⟩
  | astep_end i ctx =>
    simp only [Inspector.act, Tracer.inspector, Option.map_map, Option.map_eq_some'] at h
    obtain ⟨t2, ht2, rfl⟩ := h
    unfold Tracer.step_end_hook at ht2
    cases hstep : t.step with
    | none => rw [hstep] at ht2; exact absurd ht2 (by simp)
    | some sp =>
      rw [hstep] at ht2
      simp only [Option.some_inj] at ht2
      subst ht2
      exact ⟨_, rfl⟩
  | ainit i =>
    simp only [Inspector.act, Tracer.inspector, Option.some_inj] at h
    exact ⟨[], by simp [← h]⟩
  | alog i l =>
    simp only [Inspector.act, Tracer.inspector, Option.some_inj] at h
    exact ⟨[], by simp [← h]⟩
  | acall inputs =>
    simp only [Inspector.act, Tracer.inspector, Option.some_inj] at h
    exact ⟨[], by simp [← h]⟩
  | acall_end inputs outcome =>
    simp only [Inspector.act, Tracer.inspector, Tracer.call_end_hook, Option.some_inj] at h
    exact ⟨[], by simp [← h]⟩
  | acreate inputs =>
    simp only [Inspector.act, Tracer.inspector, Option.some_inj] at h
    exact ⟨[], by simp [← h]⟩
  | acreate_end inputs outcome =>
    simp only [Inspector.act, Tracer.inspector, Tracer.create_end_hook, Option.some_inj] at h
    exact ⟨[], by simp [← h]⟩
  | aeofcreate inputs =>
    simp only [Inspector.act, Tracer.inspector, Option.some_inj] at h
    exact ⟨[], by simp [← h]⟩
  | aeofcreate_end inputs outcome =>
    simp only [Inspector.act, Tracer.inspector, Option.some_inj] at h
    exact ⟨[], by simp [← h]⟩
  | aselfdestruct c a2 v =>
    simp only [Inspector.act, Tracer.inspector, Option.some_inj] at h
    exact ⟨[], by simp [← h]⟩

/-- Along any non-panicking tracer run the event buffer only grows at the end:
the final buffer is the initial buffer followed by the newly emitted events. -/
lemma run_tracer_events_append :
    ∀ (s : List Action) (t : Tracer) (q : Tracer × List Effect),
      Inspector.run Tracer.inspector t s = some q →
      ∃ d, q.1.events = t.events ++ d := by
  intro s
  induction s with
  | nil =>
    intro t q h
    rw [run_nil, Option.some_inj] at h
    exact ⟨[], by simp [← h]⟩
  | cons a rest ih =>
    intro t q h
    rw [run_cons] at h
    cases hact : Tracer.inspector.act t a with
    | none => rw [hact] at h; exact absurd h (by simp)
    | some p =>
      rw [hact] at h
      simp only [Option.map_eq_some'] at h
      obtain ⟨q', hq', rfl⟩ := h
      obtain ⟨d1, hd1⟩ := tracer_act_events a t p hact
      obtain ⟨d2, hd2⟩ := ih _ _ hq'
      exact ⟨d1 ++ d2, by simp [hd2, hd1]⟩

/-- The effect of a single action at the head of a run. -/
lemma effectsOf_cons (a : Action) (rest : List Action) :
    effectsOf (a :: rest) = effectsOf [a] ++ effectsOf rest := by
  cases a <;> simp [effectsOf]

/-- Outside a pair, an action that is neither `step` nor `step_end` does not
affect the calling discipline. -/
lemma pairDiscipline_false_cons_other (a : Action) (rest : List Action)
    (h1 : ∀ i, a ≠ Action.astep i) (h2 : ∀ i c, a ≠ Action.astep_end i c) :
    pairDiscipline false (a :: rest) = pairDiscipline false rest := by
  cases a with
  | astep i => exact absurd rfl (h1 i)
  | astep_end i c => exact absurd rfl (h2 i c)
  | _ => simp [pairDiscipline]

/-- An action other than `step` or `step_end` contributes no instruction
pair. -/
lemma pairsFrom_none_cons_other (a : Action) (rest : List Action)
    (h1 : ∀ i, a ≠ Action.astep i) :
    pairsFrom none (a :: rest) = pairsFrom none rest := by
  cases a with
  | astep i => exact absurd rfl (h1 i)
  | _ => simp [pairsFrom]

/-- A tracer hook other than `step`/`step_end` never panics, contributes the
same effect as no inspector at all, and leaves the pending slot and the event
buffer unchanged. -/
lemma tracer_act_other (t : Tracer) (a : Action)
    (h1 : ∀ i, a ≠ Action.astep i) (h2 : ∀ i c, a ≠ Action.astep_end i c) :
    ∃ p, Tracer.inspector.act t a = some p ∧ effectsOf [a] = [p.2] ∧
      p.1.step = t.step ∧ p.1.events = t.events := by
  cases a with
  | astep i => exact absurd rfl (h1 i)
  | astep_end i c => exact absurd rfl (h2 i c)
  | _ =>
    refine ⟨_, rfl, ?_, ?_, ?_⟩ <;>
      simp [effectsOf, Inspector.act, Tracer.inspector, Tracer.call_end_hook,
        Tracer.create_end_hook, absorbCall_call_end, absorbCreate_create_end]

/-- Unfolding a run through a known hook invocation. -/
lemma run_cons_act {σ : Type} (I : Inspector σ) (s : σ) (a : Action) (rest : List Action)
    (p : σ × Effect) (h : I.act s a = some p) :
    I.run s (a :: rest) = (I.run p.1 rest).map fun r => (r.1, p.2 :: r.2) := by
  rw [run_cons, h]

/-- The tracer's `step` hook on an empty pending slot: fills the slot from the
interpreter snapshot, records the gas remaining, and touches nothing else. -/
lemma tracer_act_astep (t : Tracer) (b : Interpreter) (ht : t.step = none) :
    Tracer.inspector.act t (Action.astep b) =
      some ({ t with
          gas_inspector := t.gas_inspector.step (interpGas b),
          step := some (stepPreOf b) },
        Effect.stepEff b) := by
  simp [Inspector.act, Tracer.inspector, Tracer.step_hook, stepPreOf, ht]

/-- The tracer's `step_end` hook on a filled pending slot: emits the completed
`Step` event and clears the slot. -/
lemma tracer_act_astep_end (t : Tracer) (sp : StepPre) (e : Interpreter) (c : Ctx)
    (ht : t.step = some sp) :
    Tracer.inspector.act t (Action.astep_end e c) =
      some ({ gas_inspector := t.gas_inspector.step_end (interpGas e),
              step := none,
              events := t.events ++ [Event.step {
                pc := sp.pc, op := sp.op, stack := sp.stack, gas := sp.gas,
                gas_cost := (t.gas_inspector.step_end (interpGas e)).last_gas_cost,
                depth := c.depth,
                error :=
                  if e.instruction_result.is_error || e.instruction_result.is_revert then
                    some e.instruction_result.name
                  else none,
                memory := sp.memory }] },
        Effect.stepEndEff e) := by
  simp [Inspector.act, Tracer.inspector, Tracer.step_end_hook, ht]

/-- The induction step of `run_tracer_paired` outside a pair, for an action
that is neither `step` nor `step_end`. -/
lemma run_tracer_paired_other (a : Action) (rest : List Action) (t : Tracer)
    (h1 : ∀ i, a ≠ Action.astep i) (h2 : ∀ i c, a ≠ Action.astep_end i c)
    (ih : ∀ (t' : Tracer) (p : Option Interpreter), pendingInv t' p →
      pairDiscipline p.isSome rest = true →
      ∃ t2, Inspector.run Tracer.inspector t' rest = some (t2, effectsOf rest) ∧
        t2.step = none ∧
        t2.events = t'.events ++ (pairsFrom p rest).map stepEventOf)
    (ht : t.step = none) (hd : pairDiscipline false (a :: rest) = true) :
    ∃ t2, Inspector.run Tracer.inspector t (a :: rest) = some (t2, effectsOf (a :: rest)) ∧
      t2.step = none ∧
      t2.events = t.events ++ (pairsFrom none (a :: rest)).map stepEventOf := by
  obtain ⟨pp, hact, heff, hstep', hev'⟩ := tracer_act_other t a h1 h2
  have hd' : pairDiscipline false rest = true := by
    rwa [pairDiscipline_false_cons_other a rest h1 h2] at hd
  obtain ⟨t2, hrun, hst, hev⟩ := ih pp.1 none
    (show pp.1.step = none by rw [hstep']; exact ht) hd'
  refine ⟨t2, ?_, hst, ?_⟩
  · rw [run_cons_act _ _ _ _ _ hact, hrun, effectsOf_cons, heff]
    rfl
  · rw [hev, hev', pairsFrom_none_cons_other a rest h1]

/-- The master lemma about the tracer under the engine's calling discipline
`pairDiscipline`: from any tracer state satisfying the pending invariant the
run never panics, produces exactly the effects of an uninspected run, ends
with an empty pending slot, and appends to the event buffer exactly one
`Step` event per executed instruction, in order, built by `mkStep` from the
before/after snapshots — including runs where the `log` or `selfdestruct`
hook fires between a `step` and its `step_end`, since those hooks leave the
tracer's state untouched. -/
lemma run_tracer_paired (s : List Action) :
    ∀ (t : Tracer) (p : Option Interpreter), pendingInv t p →
      pairDiscipline p.isSome s = true →
      ∃ t2, Inspector.run Tracer.inspector t s = some (t2, effectsOf s) ∧
        t2.step = none ∧
        t2.events = t.events ++ (pairsFrom p s).map stepEventOf := by
  induction s with
  | nil =>
    intro t p hinv hd
    cases p with
    | none => exact ⟨t, rfl, hinv, by simp [pairsFrom, effectsOf]⟩
    | some b => simp [pairDiscipline] at hd
  | cons a rest ih =>
    intro t p hinv hd
    cases a with
    | astep b =>
      cases p with
      | some b0 => simp [pairDiscipline] at hd
      | none =>
        have ht : t.step = none := hinv
        have hd' : pairDiscipline true rest = true := by
          simpa [pairDiscipline] using hd
        obtain ⟨t2, hrun, hst, hev⟩ := ih
          ({ t with gas_inspector := t.gas_inspector.step (interpGas b),
                    step := some (stepPreOf b) })
          (some b) ⟨rfl, rfl⟩ hd'
        refine ⟨t2, ?_, hst, ?_⟩
        · rw [run_cons_act _ _ _ _ _ (tracer_act_astep t b ht), hrun]
          rfl
        · rw [hev]
          simp [pairsFrom]
    | astep_end e c =>
      cases p with
      | none => simp [pairDiscipline] at hd
      | some b =>
        obtain ⟨hslot, hgas⟩ := hinv
        have hd' : pairDiscipline false rest = true := by
          simpa [pairDiscipline] using hd
        have hact := tracer_act_astep_end t (stepPreOf b) e c hslot
        have hevE : Event.step {
            pc := (stepPreOf b).pc, op := (stepPreOf b).op,
            stack := (stepPreOf b).stack, gas := (stepPreOf b).gas,
            gas_cost := (t.gas_inspector.step_end (interpGas e)).last_gas_cost,
            depth := c.depth,
            error :=
              if e.instruction_result.is_error || e.instruction_result.is_revert then
                some e.instruction_result.name
              else none,
            memory := (stepPreOf b).memory } = stepEventOf (b, e, c) := by
          simp [stepEventOf, mkStep, stepPreOf, GasInspector.step_end, interpGas, hgas]
        rw [hevE] at hact
        obtain ⟨t2, hrun, hst, hev⟩ := ih
          ({ gas_inspector := t.gas_inspector.step_end (interpGas e),
             step := none,
             events := t.events ++ [stepEventOf (b, e, c)] })
          none rfl hd'
        refine ⟨t2, ?_, hst, ?_⟩
        · rw [run_cons_act _ _ _ _ _ hact, hrun]
          rfl
        · rw [hev]
          simp [pairsFrom, List.append_assoc]
    | alog i l =>
      have hd' : pairDiscipline p.isSome rest = true := by
        cases p <;> simpa [pairDiscipline] using hd
      obtain ⟨t2, hrun, hst, hev⟩ := ih t p hinv hd'
      refine ⟨t2, ?_, hst, ?_⟩
      · rw [run_cons_act _ _ _ _ _
          (show Tracer.inspector.act t (Action.alog i l) = some (t, Effect.logEff i) from rfl),
          hrun]
        rfl
      · rw [hev]
        cases p <;> simp [pairsFrom]
    | aselfdestruct c2 a2 v =>
      have hd' : pairDiscipline p.isSome rest = true := by
        cases p <;> simpa [pairDiscipline] using hd
      obtain ⟨t2, hrun, hst, hev⟩ := ih t p hinv hd'
      refine ⟨t2, ?_, hst, ?_⟩
      · rw [run_cons_act _ _ _ _ _
          (show Tracer.inspector.act t (Action.aselfdestruct c2 a2 v) =
            some (t, Effect.sdEff c2 a2 v) from rfl),
          hrun]
        rfl
      · rw [hev]
        cases p <;> simp [pairsFrom]
    | ainit i =>
      cases p with
      | some b0 => simp [pairDiscipline] at hd
      | none =>
        exact run_tracer_paired_other (Action.ainit i) rest t
          (by intro j hj; cases hj) (by intro j c2 hj; cases hj) ih hinv hd
    | acall inputs =>
      cases p with
      | some b0 => simp [pairDiscipline] at hd
      | none =>
        exact run_tracer_paired_other (Action.acall inputs) rest t
          (by intro j hj; cases hj) (by intro j c2 hj; cases hj) ih hinv hd
    | acall_end inputs outcome =>
      cases p with
      | some b0 => simp [pairDiscipline] at hd
      | none =>
        exact run_tracer_paired_other (Action.acall_end inputs outcome) rest t
          (by intro j hj; cases hj) (by intro j c2 hj; cases hj) ih hinv hd
    | acreate inputs =>
      cases p with
      | some b0 => simp [pairDiscipline] at hd
      | none =>
        exact run_tracer_paired_other (Action.acreate inputs) rest t
          (by intro j hj; cases hj) (by intro j c2 hj; cases hj) ih hinv hd
    | acreate_end inputs outcome =>
      cases p with
      | some b0 => simp [pairDiscipline] at hd
      | none =>
        exact run_tracer_paired_other (Action.acreate_end inputs outcome) rest t
          (by intro j hj; cases hj) (by intro j c2 hj; cases hj) ih hinv hd
    | aeofcreate inputs =>
      cases p with
      | some b0 => simp [pairDiscipline] at hd
      | none =>
        exact run_tracer_paired_other (Action.aeofcreate inputs) rest t
          (by intro j hj; cases hj) (by intro j c2 hj; cases hj) ih hinv hd
    | aeofcreate_end inputs outcome =>
      cases p with
      | some b0 => simp [pairDiscipline] at hd
      | none =>
        exact run_tracer_paired_other (Action.aeofcreate_end inputs outcome) rest t
          (by intro j hj; cases hj) (by intro j c2 hj; cases hj) ih hinv hd

/-- An action that is neither `step` nor `step_end` does not affect the
alternation discipline. -/
lemma altOk_cons_other (pending : Bool) (a : Action) (rest : List Action)
    (h1 : ∀ i, a ≠ Action.astep i) (h2 : ∀ i c, a ≠ Action.astep_end i c) :
    altOk pending (a :: rest) = altOk pending rest := by
  cases a with
  | astep i => exact absurd rfl (h1 i)
  | astep_end i c => exact absurd rfl (h2 i c)
  | _ => simp [altOk]

/-- An action that is neither `step` nor `step_end` does not change the
pending flag. -/
lemma pendState_cons_other (pending : Bool) (a : Action) (rest : List Action)
    (h1 : ∀ i, a ≠ Action.astep i) (h2 : ∀ i c, a ≠ Action.astep_end i c) :
    pendState pending (a :: rest) = pendState pending rest := by
  cases a with
  | astep i => exact absurd rfl (h1 i)
  | astep_end i c => exact absurd rfl (h2 i c)
  | _ => simp [pendState]

/-- The induction step of `run_tracer_alt` for an action that is neither
`step` nor `step_end`. -/
lemma run_tracer_alt_other (a : Action) (rest : List Action) (t : Tracer)
    (h1 : ∀ i, a ≠ Action.astep i) (h2 : ∀ i c, a ≠ Action.astep_end i c)
    (ih : ∀ t' : Tracer, altOk t'.step.isSome rest = true →
      ∃ q, Inspector.run Tracer.inspector t' rest = some q ∧
        q.1.step.isSome = pendState t'.step.isSome rest)
    (halt : altOk t.step.isSome (a :: rest) = true) :
    ∃ q, Inspector.run Tracer.inspector t (a :: rest) = some q ∧
      q.1.step.isSome = pendState t.step.isSome (a :: rest) := by
  obtain ⟨p, hact, _heff, hstep', _hev'⟩ := tracer_act_other t a h1 h2
  obtain ⟨q, hq, hqs⟩ := ih p.1 (by
    rw [hstep']
    rwa [altOk_cons_other _ _ _ h1 h2] at halt)
  refine ⟨(q.1, p.2 :: q.2), ?_, ?_⟩
  · rw [run_cons_act _ _ _ _ _ hact, hq]
    rfl
  · rw [hqs, hstep', pendState_cons_other _ _ _ h1 h2]

/-- Under strict `step`/`step_end` alternation the tracer never panics, and
its pending slot is filled exactly when the action prefix ends inside a
pair. -/
lemma run_tracer_alt (s : List Action) :
    ∀ t : Tracer, altOk t.step.isSome s = true →
      ∃ q, Inspector.run Tracer.inspector t s = some q ∧
        q.1.step.isSome = pendState t.step.isSome s := by
  induction s with
  | nil =>
    intro t _
    exact ⟨(t, []), rfl, rfl⟩
  | cons a rest ih =>
    intro t halt
    cases a with
    | astep i =>
      have hpend : t.step.isSome = false := by
        cases hs : t.step with
        | none => rfl
        | some sp => rw [hs] at halt; simp [altOk] at halt
      have ht : t.step = none := by
        cases hs : t.step with
        | none => rfl
        | some sp => rw [hs] at hpend; simp at hpend
      have halt' : altOk true rest = true := by
        rw [hpend] at halt; simpa [altOk] using halt
      obtain ⟨q, hq, hqs⟩ := ih
        ({ t with gas_inspector := t.gas_inspector.step (interpGas i),
                  step := some (stepPreOf i) })
        (by simpa using halt')
      refine ⟨(q.1, Effect.stepEff i :: q.2), ?_, ?_⟩
      · rw [run_cons_act _ _ _ _ _ (tracer_act_astep t i ht), hq]
        rfl
      · simpa [pendState, hpend] using hqs
    | astep_end i c =>
      have hpend : t.step.isSome = true := by
        cases hs : t.step with
        | some sp => rfl
        | none => rw [hs] at halt; simp [altOk] at halt
      obtain ⟨sp, hsp⟩ := Option.isSome_iff_exists.mp hpend
      have halt' : altOk false rest = true := by
        rw [hpend] at halt; simpa [altOk] using halt
      obtain ⟨q, hq, hqs⟩ := ih
        ({ gas_inspector := t.gas_inspector.step_end (interpGas i),
           step := none,
           events := t.events ++ [Event.step {
             pc := sp.pc, op := sp.op, stack := sp.stack, gas := sp.gas,
             gas_cost := (t.gas_inspector.step_end (interpGas i)).last_gas_cost,
             depth := c.depth,
             error :=
               if i.instruction_result.is_error || i.instruction_result.is_revert then
                 some i.instruction_result.name
               else none,
             memory := sp.memory }] })
        (by simpa using halt')
      refine ⟨(q.1, Effect.stepEndEff i :: q.2), ?_, ?_⟩
      · rw [run_cons_act _ _ _ _ _ (tracer_act_astep_end t sp i c hsp), hq]
        rfl
      · simpa [pendState] using hqs
    | ainit i =>
      exact run_tracer_alt_other (Action.ainit i) rest t
        (by intro j hj; cases hj) (by intro j c2 hj; cases hj) ih halt
    | alog i l =>
      exact run_tracer_alt_other (Action.alog i l) rest t
        (by intro j hj; cases hj) (by intro j c2 hj; cases hj) ih halt
    | acall inputs =>
      exact run_tracer_alt_other (Action.acall inputs) rest t
        (by intro j hj; cases hj) (by intro j c2 hj; cases hj) ih halt
    | acall_end inputs outcome =>
      exact run_tracer_alt_other (Action.acall_end inputs outcome) rest t
        (by intro j hj; cases hj) (by intro j c2 hj; cases hj) ih halt
    | acreate inputs =>
      exact run_tracer_alt_other (Action.acreate inputs) rest t
        (by intro j hj; cases hj) (by intro j c2 hj; cases hj) ih halt
    | acreate_end inputs outcome =>
      exact run_tracer_alt_other (Action.acreate_end inputs outcome) rest t
        (by intro j hj; cases hj) (by intro j c2 hj; cases hj) ih halt
    | aeofcreate inputs =>
      exact run_tracer_alt_other (Action.aeofcreate inputs) rest t
        (by intro j hj; cases hj) (by intro j c2 hj; cases hj) ih halt
    | aeofcreate_end inputs outcome =>
      exact run_tracer_alt_other (Action.aeofcreate_end inputs outcome) rest t
        (by intro j hj; cases hj) (by intro j c2 hj; cases hj) ih halt
    | aselfdestruct c2 a2 v =>
      exact run_tracer_alt_other (Action.aselfdestruct c2 a2 v) rest t
        (by intro j hj; cases hj) (by intro j c2 hj; cases hj) ih halt

/-- The induction step of `altOk_append` for an action that is neither `step`
nor `step_end`. -/
lemma altOk_append_other (a : Action) (rest q : List Action) (pe : Bool)
    (h1 : ∀ i, a ≠ Action.astep i) (h2 : ∀ i c, a ≠ Action.astep_end i c)
    (ih : ∀ (q : List Action) (pe : Bool), altOk pe (rest ++ q) = true →
      altOk pe rest = true ∧ altOk (pendState pe rest) q = true)
    (h : altOk pe (a :: rest ++ q) = true) :
    altOk pe (a :: rest) = true ∧ altOk (pendState pe (a :: rest)) q = true := by
  rw [List.cons_append, altOk_cons_other _ _ _ h1 h2] at h
  obtain ⟨h3, h4⟩ := ih q pe h
  refine ⟨?_, ?_⟩
  · rwa [altOk_cons_other _ _ _ h1 h2]
  · rwa [pendState_cons_other _ _ _ h1 h2]

/-- `altOk` splits across list append. -/
lemma altOk_append (p : List Action) :
    ∀ (q : List Action) (pe : Bool), altOk pe (p ++ q) = true →
      altOk pe p = true ∧ altOk (pendState pe p) q = true := by
  induction p with
  | nil => intro q pe h; exact ⟨rfl, by simpa [pendState] using h⟩
  | cons a rest ih =>
    intro q pe h
    cases a with
    | astep i =>
      rw [List.cons_append] at h
      simp only [altOk] at h
      obtain ⟨h1, h2⟩ := Bool.and_eq_true_iff.mp h
      obtain ⟨h3, h4⟩ := ih q true h2
      exact ⟨by simp [altOk, h1, h3], by simpa [pendState] using h4⟩
    | astep_end i c =>
      rw [List.cons_append] at h
      simp only [altOk] at h
      obtain ⟨h1, h2⟩ := Bool.and_eq_true_iff.mp h
      obtain ⟨h3, h4⟩ := ih q false h2
      exact ⟨by simp [altOk, h1, h3], by simpa [pendState] using h4⟩
    | ainit i =>
      exact altOk_append_other (Action.ainit i) rest q pe
        (by intro j hj; cases hj) (by intro j c2 hj; cases hj) ih h
    | alog i l =>
      exact altOk_append_other (Action.alog i l) rest q pe
        (by intro j hj; cases hj) (by intro j c2 hj; cases hj) ih h
    | acall inputs =>
      exact altOk_append_other (Action.acall inputs) rest q pe
        (by intro j hj; cases hj) (by intro j c2 hj; cases hj) ih h
    | acall_end inputs outcome =>
      exact altOk_append_other (Action.acall_end inputs outcome) rest q pe
        (by intro j hj; cases hj) (by intro j c2 hj; cases hj) ih h
    | acreate inputs =>
      exact altOk_append_other (Action.acreate inputs) rest q pe
        (by intro j hj; cases hj) (by intro j c2 hj; cases hj) ih h
    | acreate_end inputs outcome =>
      exact altOk_append_other (Action.acreate_end inputs outcome) rest q pe
        (by intro j hj; cases hj) (by intro j c2 hj; cases hj) ih h
    | aeofcreate inputs =>
      exact altOk_append_other (Action.aeofcreate inputs) rest q pe
        (by intro j hj; cases hj) (by intro j c2 hj; cases hj) ih h
    | aeofcreate_end inputs outcome =>
      exact altOk_append_other (Action.aeofcreate_end inputs outcome) rest q pe
        (by intro j hj; cases hj) (by intro j c2 hj; cases hj) ih h
    | aselfdestruct c2 a2 v =>
      exact altOk_append_other (Action.aselfdestruct c2 a2 v) rest q pe
        (by intro j hj; cases hj) (by intro j c2 hj; cases hj) ih h

/-! ### Lookup lemmas for the in-memory account state -/

/-- Installing a batch of accounts does not disturb the entry of an address
outside the batch. -/
lemma lookup_foldl_create_not_mem :
    ∀ (xs : List (Address × Account)) (e : Engine) (k : Address),
      k ∉ xs.map Prod.fst →
      List.lookup k
        (xs.foldl (fun en pr => en.create_account pr.1 pr.2) e).state =
        List.lookup k e.state := by
  intro xs
  induction xs with
  | nil => intro e k _; rfl
  | cons x rest ih =>
    intro e k hk
    have hk2 : k ∉ rest.map Prod.fst := by
      intro hm
      exact hk (by simp [hm])
    have hne : k ≠ x.1 := by
      intro heq
      exact hk (by simp [heq])
    rw [List.foldl_cons, ih (e.create_account x.1 x.2) k hk2]
    have hbeq : (k == x.1) = false := beq_eq_false_iff_ne.mpr hne
    simp [Engine.create_account, List.lookup, hbeq]

/-- Installing a batch of accounts with pairwise distinct addresses makes each
of its entries visible at its own address. -/
lemma lookup_foldl_create_mem :
    ∀ (xs : List (Address × Account)) (e : Engine) (pr : Address × Account),
      pr ∈ xs → (xs.map Prod.fst).Nodup →
      List.lookup pr.1
        (xs.foldl (fun en q => en.create_account q.1 q.2) e).state = some pr.2 := by
  intro xs
  induction xs with
  | nil => intro e pr hm _; cases hm
  | cons x rest ih =>
    intro e pr hm hnd
    rw [List.foldl_cons]
    rw [List.map_cons, List.nodup_cons] at hnd
    cases hm with
    | head =>
      rw [lookup_foldl_create_not_mem rest _ x.1 hnd.1]
      simp [Engine.create_account, List.lookup]
    | tail _ hm2 => exact ih _ pr hm2 hnd.2

/-! ### Claims -/

/-- C1: the tracer never influences execution.  Its `call`, `create` and
`eofcreate` hooks always return `None` and leave their inputs unchanged, its
`log`, `eofcreate_end` and `selfdestruct` hooks do not modify any of their
inputs, and under the engine's calling discipline the effect sequence the
engine consumes when the `Tracer` is attached is exactly the effect sequence
of a run with no inspector attached, so the `ExecutionResult` and final state
(which are a function of that sequence) coincide. -/
theorem c1_tracer_never_influences_execution (t : Tracer) (s : List Action)
    (h1 : t.step = none) (h2 : pairDiscipline false s = true) :
    (∀ (t' : Tracer) (inputs : CallInputs),
      Tracer.inspector.call t' inputs = (t', inputs, none)) ∧
    (∀ (t' : Tracer) (inputs : CreateInputs),
      Tracer.inspector.create t' inputs = (t', inputs, none)) ∧
    (∀ (t' : Tracer) (inputs : EOFCreateInputs),
      Tracer.inspector.eofcreate t' inputs = (t', inputs, none)) ∧
    (∀ (t' : Tracer) (i : Interpreter) (l : Log),
      Tracer.inspector.log t' i l = (t', i)) ∧
    (∀ (t' : Tracer) (inputs : EOFCreateInputs) (o : CreateOutcome),
      Tracer.inspector.eofcreate_end t' inputs o = (t', o)) ∧
    (∀ (t' : Tracer) (c a : Address) (v : U256),
      Tracer.inspector.selfdestruct t' c a v = t') ∧
    (Inspector.run Tracer.inspector t s).map Prod.snd =
      (Inspector.run nullInspector () s).map Prod.snd := by
  refine ⟨fun _ _ => rfl, fun _ _ => rfl, fun _ _ => rfl, fun _ _ _ => rfl,
    fun _ _ _ => rfl, fun _ _ _ _ => rfl, ?_⟩
  obtain ⟨t2, hrun, _, _⟩ := run_tracer_paired s t none h1 h2
  rw [hrun, run_null]
  rfl

/-- Witness for C1 at a concrete tracer state and a hook script whose `log`
and `selfdestruct` hooks fire inside `step`/`step_end` pairs. -/
theorem c1_witness :
    Tracer.new.step = none ∧ pairDiscipline false demoScriptLog = true ∧
    (Inspector.run Tracer.inspector Tracer.new demoScriptLog).map Prod.snd =
      (Inspector.run nullInspector () demoScriptLog).map Prod.snd :=
  ⟨rfl, by decide,
   (c1_tracer_never_influences_execution Tracer.new demoScriptLog rfl (by decide)).2.2.2.2.2.2⟩

/-- C2: every transaction executed with an empty tracer yields exactly one
`Step` event per executed instruction, in execution order, recording the
program counter, opcode byte, gas remaining before the instruction, the gas
consumed by the instruction, the full operand stack before the instruction,
and the call-stack depth. -/
theorem c2_one_step_event_per_instruction (ext : ExtEngine) (eng : Engine) (tx : TxEnv)
    (hstep : eng.tracer.step = none) (hbuf : eng.tracer.events = [])
    (hadj : pairDiscipline false (ext eng.state tx).1 = true)
    (r : ResultAndState) (hok : (ext eng.state tx).2 = Except.ok r) :
    ∃ ev eng2, Engine.execute ext eng tx = some (Except.ok (r, ev), eng2) ∧
      ev.length = (pairsFrom none (ext eng.state tx).1).length ∧
      ∀ k (hk : k < (pairsFrom none (ext eng.state tx).1).length),
        ∃ st : Step, ev[k]? = some (Event.step st) ∧
          st.pc = ((pairsFrom none (ext eng.state tx).1).get ⟨k, hk⟩).1.pc ∧
          st.op = ((pairsFrom none (ext eng.state tx).1).get ⟨k, hk⟩).1.opcode ∧
          st.gas = ((pairsFrom none (ext eng.state tx).1).get ⟨k, hk⟩).1.gasRemaining ∧
          st.gas_cost = ((pairsFrom none (ext eng.state tx).1).get ⟨k, hk⟩).1.gasRemaining -
            ((pairsFrom none (ext eng.state tx).1).get ⟨k, hk⟩).2.1.gasRemaining ∧
          st.stack = ((pairsFrom none (ext eng.state tx).1).get ⟨k, hk⟩).1.stack ∧
          st.depth = ((pairsFrom none (ext eng.state tx).1).get ⟨k, hk⟩).2.2.depth := by
  obtain ⟨t2, hrun, _ht2, hev2⟩ :=
    run_tracer_paired (ext eng.state tx).1 eng.tracer none hstep hadj
  rw [hbuf, List.nil_append] at hev2
  refine ⟨t2.events, { eng with tracer := { t2 with events := [] } }, ?_, ?_, ?_⟩
  · simp only [Engine.execute, hrun, hok]
  · rw [hev2, List.length_map]
  · intro k hk
    refine ⟨mkStep ((pairsFrom none (ext eng.state tx).1).get ⟨k, hk⟩).1
        ((pairsFrom none (ext eng.state tx).1).get ⟨k, hk⟩).2.1
        ((pairsFrom none (ext eng.state tx).1).get ⟨k, hk⟩).2.2, ?_, rfl, rfl, rfl, rfl, rfl, rfl⟩
    rw [hev2, List.getElem?_map, List.getElem?_eq_getElem hk]
    rfl

/-- Witness for C2 at a concrete engine, transaction and a hook script with
`log` and `selfdestruct` hooks firing inside instruction pairs. -/
theorem c2_witness :
    ∃ ev eng2,
      Engine.execute demoExtScriptLog Engine.new TxEnv.default =
        some (Except.ok ({ raw := 0 }, ev), eng2) ∧
      ev.length = (pairsFrom none demoScriptLog).length := by
  obtain ⟨ev, eng2, h1, h2, _⟩ := c2_one_step_event_per_instruction
    demoExtScriptLog Engine.new TxEnv.default
    rfl rfl (by decide) { raw := 0 } rfl
  exact ⟨ev, eng2, h1, h2⟩

/-- C3: a successful `Engine::execute` returns the entire buffered event log
(the pre-existing buffer followed by events captured during the call) and
leaves the engine's event buffer empty, so two consecutive successful calls
never share or repeat events. -/
theorem c3_execute_drains_buffer (ext : ExtEngine) (eng : Engine) (tx : TxEnv)
    (r : ResultAndState) (ev : List Event) (eng2 : Engine)
    (h : Engine.execute ext eng tx = some (Except.ok (r, ev), eng2)) :
    eng2.tracer.events = [] ∧
    (∃ q, Inspector.run Tracer.inspector eng.tracer (ext eng.state tx).1 = some q ∧
      ev = q.1.events) ∧
    (∃ d, ev = eng.tracer.events ++ d) := by
  simp only [Engine.execute] at h
  cases hrun : Inspector.run Tracer.inspector eng.tracer (ext eng.state tx).1 with
  | none => rw [hrun] at h; exact absurd h (by simp)
  | some p =>
    rw [hrun] at h
    cases hres : (ext eng.state tx).2 with
    | error e => rw [hres] at h; simp at h
    | ok r2 =>
      rw [hres] at h
      simp only [Option.some_inj, Prod.mk.injEq, Except.ok.injEq] at h
      obtain ⟨⟨_hr, hev⟩, heng⟩ := h
      refine ⟨?_, ⟨p, rfl, hev.symm⟩, ?_⟩
      · rw [← heng]
      · obtain ⟨d, hd⟩ := run_tracer_events_append (ext eng.state tx).1 eng.tracer p hrun
        exact ⟨d, by rw [← hev, hd]⟩

/-- Witness for C3 at a concrete engine and transaction. -/
theorem c3_witness :
    ∃ ev eng2, Engine.execute demoExtScript Engine.new TxEnv.default =
        some (Except.ok ({ raw := 0 }, ev), eng2) ∧
      eng2.tracer.events = [] ∧ (∃ d, ev = Engine.new.tracer.events ++ d) := by
  obtain ⟨t2, hrun, _hst, _hev⟩ := run_tracer_paired demoScript Tracer.new none rfl (by decide)
  have hexec : Engine.execute demoExtScript Engine.new TxEnv.default =
      some (Except.ok ({ raw := 0 }, t2.events),
        { tracer := { t2 with events := [] }, state := [] }) := by
    simp only [Engine.execute, demoExtScript]
    rw [show Inspector.run Tracer.inspector Engine.new.tracer demoScript =
      some (t2, effectsOf demoScript) from hrun]
    rfl
  have h := c3_execute_drains_buffer demoExtScript Engine.new TxEnv.default
    { raw := 0 } t2.events { tracer := { t2 with events := [] }, state := [] } hexec
  exact ⟨t2.events, { tracer := { t2 with events := [] }, state := [] }, hexec, h.1, h.2.2⟩

/-- Counterexample for C4 as stated: the request account of `demoEnv` carries
balance 5 and nonce 7 together with code, but the `transaction` handler
installs it via `AccountInfo::from_bytecode`, which fixes balance 0 and
nonce 1, so the installed account does not carry the request's balance and
nonce. -/
theorem c4_counterexample :
    List.lookup (1 : Address) (transactionEngine demoEnv).state =
      some { info := { balance := 0, nonce := 1, code := some [96, 64] },
             storage := [(2, 3)] } ∧
    ¬ (∀ a ∈ demoEnv.accounts,
        List.lookup a.address (transactionEngine demoEnv).state =
          some { info := { balance := a.balance, nonce := a.nonce, code := a.code },
                 storage := a.storage }) := by
  decide

/-- C4 (amended): each request account is installed in the fresh engine at its
given address with its given storage; an account without code is installed
with the given balance and nonce and no code; an account with code is
installed with that code, balance 0 and nonce 1 (the request's balance and
nonce are ignored). -/
theorem c4_accounts_installed (env : Environment)
    (hnd : (env.accounts.map ReqAccount.address).Nodup) :
    ∀ a ∈ env.accounts,
      List.lookup a.address (transactionEngine env).state = some (installAccount a) ∧
      (installAccount a).storage = a.storage ∧
      (a.code = none →
        installAccount a =
          { info := { balance := a.balance, nonce := a.nonce, code := none },
            storage := a.storage }) ∧
      (∀ cde, a.code = some cde →
        installAccount a =
          { info := { balance := 0, nonce := 1, code := some cde },
            storage := a.storage }) := by
  intro a ha
  refine ⟨?_, ?_, ?_, ?_⟩
  · have hfold : transactionEngine env =
        (env.accounts.map (fun a0 => (a0.address, installAccount a0))).foldl
          (fun e q => e.create_account q.1 q.2) Engine.new := by
      rw [transactionEngine, List.foldl_map]
    rw [hfold]
    refine lookup_foldl_create_mem _ Engine.new (a.address, installAccount a)
      (List.mem_map_of_mem _ ha) ?_
    simpa [List.map_map, Function.comp] using hnd
  · cases hc : a.code <;>
      simp [installAccount, hc, Account.with_storage, AccountInfo.toAccount]
  · intro h0
    simp [installAccount, h0, AccountInfo.from_balance, AccountInfo.with_nonce,
      Account.with_storage, AccountInfo.toAccount]
  · intro cde hc
    simp [installAccount, hc, AccountInfo.from_bytecode,
      Account.with_storage, AccountInfo.toAccount]

/-- Witness for C4 (amended) at the concrete request environment. -/
theorem c4_witness :
    (demoEnv.accounts.map ReqAccount.address).Nodup ∧
    demoReqAccount ∈ demoEnv.accounts ∧
    List.lookup demoReqAccount.address (transactionEngine demoEnv).state =
      some (installAccount demoReqAccount) :=
  ⟨by decide, by decide,
   (c4_accounts_installed demoEnv (by decide) demoReqAccount (by decide)).1⟩

/-- C5: `POST /api/isolate/eval/<code>` returns an `Err` string when `code` is
not valid hex, and otherwise installs the decoded bytecode as a contract at
address `0xffffffffffffffffffffffffffffffffffffffff`, executes a call to it
with gas limit `0x1000000`, returns an `Err` string when the engine reports an
execution error, and otherwise returns a JSON response carrying the captured
events and the execution summary. -/
theorem c5_eval_route (ext : ExtEngine) (code : String) :
    evalAddr = 2 ^ 160 - 1 ∧
    evalTx.kind = TxKind.Call evalAddr ∧
    evalTx.gas_limit = 0x1000000 ∧
    (hexDecode code = none → ∃ msg, eval ext code = some (Except.error msg)) ∧
    (∀ bs, hexDecode code = some bs →
      (∀ e eng2,
        Engine.execute ext { tracer := Tracer.new, state := evalPre bs } evalTx =
          some (Except.error e, eng2) →
        eval ext code = some (Except.error e)) ∧
      (∀ r ev eng2,
        Engine.execute ext { tracer := Tracer.new, state := evalPre bs } evalTx =
          some (Except.ok (r, ev), eng2) →
        eval ext code = some (Except.ok { events := ev, summary := r }))) := by
  refine ⟨rfl, rfl, rfl, ?_, ?_⟩
  · intro h
    refine ⟨"failed to parse bytes", ?_⟩
    unfold eval
    rw [h]
  · intro bs hbs
    have hEq : eval ext code =
        (match Engine.execute ext { tracer := Tracer.new, state := evalPre bs } evalTx with
         | none => none
         | some (Except.error e, _) => some (Except.error e)
         | some (Except.ok pr, _) => some (Except.ok { events := pr.2, summary := pr.1 })) := by
      unfold eval
      rw [hbs]
      rfl
    constructor
    · intro e eng2 hex
      rw [hEq, hex]
    · intro r ev eng2 hex
      rw [hEq, hex]

/-- Witness for C5: a bad hex string yields an error; a valid code string
with a successful engine yields the events/summary response. -/
theorem c5_witness :
    (hexDecode "zz" = none ∧ (∃ msg, eval demoExt "zz" = some (Except.error msg))) ∧
    (hexDecode "6040" = some [96, 64] ∧
      eval demoExt "6040" =
        some (Except.ok { events := [], summary := { raw := 0 } })) := by
  refine ⟨⟨by decide, (c5_eval_route demoExt "zz").2.2.2.1 (by decide)⟩,
    ⟨by decide, ?_⟩⟩
  exact ((c5_eval_route demoExt "6040").2.2.2.2 [96, 64] (by decide)).2
    { raw := 0 } [] { tracer := Tracer.new, state := evalPre [96, 64] } rfl

/-- C6: the engine's store is in-memory only.  `Engine::new` starts from an
empty account map, `create_account` inserts (shadowing any previous entry for
the same address) so the account is visible to later lookups on that engine,
the pre-state of an execution on an engine built by `new` plus a batch of
`create_account` calls is exactly those accounts, and execution consults
nothing but the engine's in-memory state and the transaction (two external
engines agreeing on that state and transaction make `execute` agree). -/
theorem c6_in_memory_store :
    Engine.new.state = [] ∧
    (∀ (eng : Engine) (a : Address) (acc : Account),
      (Engine.create_account eng a acc).state = (a, acc) :: eng.state) ∧
    (∀ (eng : Engine) (a : Address) (acc : Account),
      List.lookup a (Engine.create_account eng a acc).state = some acc) ∧
    (∀ (eng : Engine) (a : Address) (acc : Account) (b : Address), b ≠ a →
      List.lookup b (Engine.create_account eng a acc).state = List.lookup b eng.state) ∧
    (∀ (accs : List (Address × Account)) (pr : Address × Account),
      pr ∈ accs → (accs.map Prod.fst).Nodup →
      List.lookup pr.1
        (accs.foldl (fun e q => e.create_account q.1 q.2) Engine.new).state = some pr.2) ∧
    (∀ (ext ext2 : ExtEngine) (eng : Engine) (tx : TxEnv),
      ext eng.state tx = ext2 eng.state tx →
      Engine.execute ext eng tx = Engine.execute ext2 eng tx) := by
  refine ⟨rfl, fun _ _ _ => rfl, ?_, ?_, ?_, ?_⟩
  · intro eng a acc
    simp [Engine.create_account, List.lookup]
  · intro eng a acc b hne
    have hbeq : (b == a) = false := beq_eq_false_iff_ne.mpr hne
    simp [Engine.create_account, List.lookup, hbeq]
  · intro accs pr hm hnd
    exact lookup_foldl_create_mem accs Engine.new pr hm hnd
  · intro ext ext2 eng tx h
    simp only [Engine.execute, h]

/-- Witness for C6 at concrete accounts and engines. -/
theorem c6_witness :
    List.lookup (1 : Address) (Engine.create_account Engine.new 1 demoAccount).state =
      some demoAccount ∧
    ((2 : Address) ≠ 1) ∧
    List.lookup (2 : Address) (Engine.create_account Engine.new 1 demoAccount).state =
      List.lookup 2 Engine.new.state ∧
    ((1, demoAccount) ∈ [((1 : Address), demoAccount)]) ∧
    List.lookup (1 : Address)
      ([((1 : Address), demoAccount)].foldl
        (fun e q => e.create_account q.1 q.2) Engine.new).state = some demoAccount :=
  ⟨c6_in_memory_store.2.2.1 Engine.new 1 demoAccount,
   by decide,
   c6_in_memory_store.2.2.2.1 Engine.new 1 demoAccount 2 (by decide),
   by decide,
   c6_in_memory_store.2.2.2.2.1 [(1, demoAccount)] (1, demoAccount) (by decide) (by decide)⟩

/-- C7: `Engine::execute` hands the given `TxEnv` and the engine's own state
to the external engine and passes the engine's result back unchanged (both the
`Ok` and the `Err` case), and it performs no state manipulation of its own:
the account state after `execute` is the account state before. -/
theorem c7_execute_forwards (ext : ExtEngine) (eng : Engine) (tx : TxEnv) :
    (∀ (r : ResultAndState) (q : Tracer × List Effect),
      (ext eng.state tx).2 = Except.ok r →
      Inspector.run Tracer.inspector eng.tracer (ext eng.state tx).1 = some q →
      ∃ eng2, Engine.execute ext eng tx = some (Except.ok (r, q.1.events), eng2) ∧
        eng2.state = eng.state) ∧
    (∀ (e : EVMError) (q : Tracer × List Effect),
      (ext eng.state tx).2 = Except.error e →
      Inspector.run Tracer.inspector eng.tracer (ext eng.state tx).1 = some q →
      ∃ eng2, Engine.execute ext eng tx = some (Except.error e, eng2) ∧
        eng2.state = eng.state) := by
  constructor
  · intro r q hok hrun
    refine ⟨{ eng with tracer := { q.1 with events := [] } }, ?_, rfl⟩
    simp only [Engine.execute, hrun, hok]
  · intro e q herr hrun
    refine ⟨{ eng with tracer := q.1 }, ?_, rfl⟩
    simp only [Engine.execute, hrun, herr]

/-- Witness for C7: the forwarded result at a concrete engine oracle, both for
a successful and for a failing engine. -/
theorem c7_witness :
    (∃ eng2, Engine.execute demoExt Engine.new TxEnv.default =
      some (Except.ok ({ raw := 0 }, Tracer.new.events), eng2) ∧
      eng2.state = Engine.new.state) ∧
    (∃ eng2, Engine.execute demoExtErr Engine.new TxEnv.default =
      some (Except.error "engine failed", eng2) ∧
      eng2.state = Engine.new.state) :=
  ⟨(c7_execute_forwards demoExt Engine.new TxEnv.default).1 { raw := 0 }
      (Tracer.new, []) rfl rfl,
   (c7_execute_forwards demoExtErr Engine.new TxEnv.default).2 "engine failed"
      (Tracer.new, []) rfl rfl⟩

/-- C8: under strict alternation of `step` and `step_end` within an execution,
the assertion in `Tracer::step` (pending slot empty) and the unwrap in
`Tracer::step_end` (pending slot filled) never fail — the run over the whole
script and over any prefix returns a value rather than panicking — and
outside any `step`/`step_end` pair the pending slot is `None`. -/
theorem c8_step_alternation (p q : List Action)
    (h : altOk false (p ++ q) = true) :
    (∃ out, Inspector.run Tracer.inspector Tracer.new (p ++ q) = some out ∧
      out.1.step.isSome = pendState false (p ++ q)) ∧
    (∃ outp, Inspector.run Tracer.inspector Tracer.new p = some outp ∧
      (pendState false p = false → outp.1.step = none)) := by
  obtain ⟨out, hout, houts⟩ := run_tracer_alt (p ++ q) Tracer.new h
  have hp := (altOk_append p q false h).1
  obtain ⟨outp, houtp, houtps⟩ := run_tracer_alt p Tracer.new hp
  refine ⟨⟨out, hout, houts⟩, ⟨outp, houtp, ?_⟩⟩
  intro hpend
  have hsome : outp.1.step.isSome = false := by
    have h0 : outp.1.step.isSome = pendState false p := houtps
    rw [h0, hpend]
  cases hs : outp.1.step with
  | none => rfl
  | some sp => rw [hs] at hsome; simp at hsome

/-- Witness for C8 at the concrete sample script. -/
theorem c8_witness :
    altOk false (demoScript ++ []) = true ∧
    (∃ outp, Inspector.run Tracer.inspector Tracer.new demoScript = some outp ∧
      (pendState false demoScript = false → outp.1.step = none)) :=
  ⟨by decide, (c8_step_alternation demoScript [] (by decide)).2⟩

/-- C9: in every recorded `Step` the `memory` field is `None` exactly when the
interpreter memory is empty at the start of the instruction, and otherwise is
the 0x-prefixed hex encoding of the entire memory as it was at the start of
the instruction (the `step`-time snapshot, not the `step_end`-time one). -/
theorem c9_memory_field (s : List Action) (t : Tracer)
    (h1 : t.step = none) (h2 : pairDiscipline false s = true) :
    ∃ t2, Inspector.run Tracer.inspector t s = some (t2, effectsOf s) ∧
      ∃ newEvents, t2.events = t.events ++ newEvents ∧
        newEvents.length = (pairsFrom none s).length ∧
        ∀ k (hk : k < (pairsFrom none s).length),
          ∃ st : Step, newEvents[k]? = some (Event.step st) ∧
            (st.memory = none ↔ ((pairsFrom none s).get ⟨k, hk⟩).1.memory.length = 0) ∧
            (((pairsFrom none s).get ⟨k, hk⟩).1.memory.length ≠ 0 →
              st.memory = some (encodePrefixed ((pairsFrom none s).get ⟨k, hk⟩).1.memory)) := by
  obtain ⟨t2, hrun, _, hev⟩ := run_tracer_paired s t none h1 h2
  refine ⟨t2, hrun, (pairsFrom none s).map stepEventOf, hev, by simp, ?_⟩
  intro k hk
  refine ⟨mkStep ((pairsFrom none s).get ⟨k, hk⟩).1 ((pairsFrom none s).get ⟨k, hk⟩).2.1
      ((pairsFrom none s).get ⟨k, hk⟩).2.2, ?_, ?_, ?_⟩
  · rw [List.getElem?_map, List.getElem?_eq_getElem hk]
    rfl
  · by_cases hl : ((pairsFrom none s).get ⟨k, hk⟩).1.memory.length = 0 <;>
      simp [mkStep, hl]
  · intro hl
    have hl2 : (pairsFrom none s)[k].1.memory.length ≠ 0 := hl
    have hnil : (pairsFrom none s)[k].1.memory ≠ [] := by
      intro h0
      exact hl2 (by rw [h0]; rfl)
    simp [mkStep, List.take_length, hnil]

/-- Witness for C9 at a concrete script whose `log` hook fires inside an
instruction pair. -/
theorem c9_witness :
    Tracer.new.step = none ∧ pairDiscipline false demoScriptLog = true ∧
    ∃ t2, Inspector.run Tracer.inspector Tracer.new demoScriptLog =
      some (t2, effectsOf demoScriptLog) := by
  refine ⟨rfl, by decide, ?_⟩
  obtain ⟨t2, hrun, _⟩ := c9_memory_field demoScriptLog Tracer.new rfl (by decide)
  exact ⟨t2, hrun⟩

/-- C10: in every recorded `Step` the `error` field holds the `Debug`
rendering of the instruction result exactly when the result after the
instruction is an error or a revert (and is `None` otherwise), and the serde
serialization omits the `error` and `memory` object fields when they are
`None`. -/
theorem c10_error_field (s : List Action) (t : Tracer)
    (h1 : t.step = none) (h2 : pairDiscipline false s = true) :
    (∃ t2, Inspector.run Tracer.inspector t s = some (t2, effectsOf s) ∧
      ∃ newEvents, t2.events = t.events ++ newEvents ∧
        newEvents.length = (pairsFrom none s).length ∧
        ∀ k (hk : k < (pairsFrom none s).length),
          ∃ st : Step, newEvents[k]? = some (Event.step st) ∧
            st.error =
              (if ((pairsFrom none s).get ⟨k, hk⟩).2.1.instruction_result.is_error ||
                  ((pairsFrom none s).get ⟨k, hk⟩).2.1.instruction_result.is_revert then
                some ((pairsFrom none s).get ⟨k, hk⟩).2.1.instruction_result.name
              else none)) ∧
    (∀ st : Step, st.error = none →
      "error" ∉ (Step.serialize st).map Prod.fst) ∧
    (∀ st : Step, st.memory = none →
      "memory" ∉ (Step.serialize st).map Prod.fst) := by
  refine ⟨?_, ?_, ?_⟩
  · obtain ⟨t2, hrun, _, hev⟩ := run_tracer_paired s t none h1 h2
    refine ⟨t2, hrun, (pairsFrom none s).map stepEventOf, hev, by simp, ?_⟩
    intro k hk
    refine ⟨mkStep ((pairsFrom none s).get ⟨k, hk⟩).1 ((pairsFrom none s).get ⟨k, hk⟩).2.1
        ((pairsFrom none s).get ⟨k, hk⟩).2.2, ?_, rfl⟩
    rw [List.getElem?_map, List.getElem?_eq_getElem hk]
    rfl
  · intro st h
    cases hm : st.memory <;> simp [Step.serialize, h, hm]
  · intro st h
    cases he : st.error <;> simp [Step.serialize, h, he]

/-- Witness for C10: the serialization of a concrete error-free `Step` has no
"error" or "memory" key, via the claim's theorem at the empty script. -/
theorem c10_witness :
    "error" ∉ (Step.serialize
      { pc := 0, op := 0, gas := 0, gas_cost := 0, stack := [], depth := 1,
        error := none, memory := none }).map Prod.fst ∧
    "memory" ∉ (Step.serialize
      { pc := 0, op := 0, gas := 0, gas_cost := 0, stack := [], depth := 1,
        error := none, memory := none }).map Prod.fst :=
  ⟨(c10_error_field demoScriptLog Tracer.new rfl (by decide)).2.1
      { pc := 0, op := 0, gas := 0, gas_cost := 0, stack := [], depth := 1,
        error := none, memory := none } rfl,
   (c10_error_field demoScriptLog Tracer.new rfl (by decide)).2.2
      { pc := 0, op := 0, gas := 0, gas_cost := 0, stack := [], depth := 1,
        error := none, memory := none } rfl⟩

end Etherealog
